import Mathlib

/-!
# Verification of the Deep Q-Learning trainer core

Shallow embedding of the repository's training engine:

* `src/agents/deep_q_learning/mountain_car/agent.py`
  (`MountainCarAgent`: replay memory, epsilon schedule, target computation,
  target-network synchronization, greedy play-back),
* `src/environments/move_to_goal/move_to_goal.py` (`MoveToGoal`),
* `src/agents/policy_gradient_methods/environments.py` (`EpisodesBatch`).

States are abstracted to a type `σ`, network parameter sets to a type `θ`;
network evaluation (`model(x)` / `model.predict`) is an explicit function
`θ → σ → List ℚ` and a gradient step (`train_step`) an explicit function
on parameters, so that the trainer's control flow and target arithmetic
are embedded exactly while the numerics of the network stay abstract.
Scalars are ℚ (the claims under study are control-flow and exact-arithmetic
properties, not float-rounding properties).
-/

/-- One replay-memory record `(state, action, reward, new_state, done)`
as pushed by `MountainCarAgent.train_agent` (agent.py line 148). -/
structure Transition (σ : Type) where
  state : σ
  action : ℕ
  reward : ℚ
  next_state : σ
  done : Bool
  deriving DecidableEq, Repr

/-- `collections.deque` with `maxlen`: `append` keeps the most recent
`maxlen` elements, silently evicting from the left (agent.py line 79/96). -/
def dequeAppend (maxlen : ℕ) (q : List α) (x : α) : List α :=
  (q ++ [x]).drop (q.length + 1 - maxlen)

/-- The mutable state of a `MountainCarAgent` (agent.py lines 61-83), with
the network parameter sets abstracted to `θ`. -/
structure Agent (σ θ : Type) where
  replay_memory : List (Transition σ)
  replay_memory_size : ℕ
  min_replay_memory_size : ℕ
  batch_size : ℕ
  target_update_counter : ℕ
  update_target_every : ℕ
  modelW : θ
  targetW : θ
  deriving DecidableEq

/-- `MountainCarAgent.update_replay_memory` (agent.py lines 95-96):
`self.replay_memory.append(transition)` on a deque with
`maxlen = replay_memory_size`. -/
def update_replay_memory (ag : Agent σ θ) (t : Transition σ) : Agent σ θ :=
  { ag with replay_memory := dequeAppend ag.replay_memory_size ag.replay_memory t }

theorem dequeAppend_length_le (maxlen : ℕ) (q : List α) (x : α) :
    (dequeAppend maxlen q x).length ≤ maxlen ∨
      (dequeAppend maxlen q x).length = q.length + 1 := by
  unfold dequeAppend
  rcases le_or_lt (q.length + 1) maxlen with h | h
  · right
    simp [Nat.sub_eq_zero_of_le h]
  · left
    simp only [List.length_drop, List.length_append, List.length_cons,
      List.length_nil]
    omega

theorem dequeAppend_length (maxlen : ℕ) (q : List α) (x : α)
    (h : q.length ≤ maxlen) :
    (dequeAppend maxlen q x).length = min maxlen (q.length + 1) := by
  unfold dequeAppend
  simp only [List.length_drop, List.length_append, List.length_cons,
    List.length_nil]
  omega

theorem dequeAppend_of_lt (maxlen : ℕ) (q : List α) (x : α)
    (h : q.length < maxlen) :
    dequeAppend maxlen q x = q ++ [x] := by
  unfold dequeAppend
  rw [Nat.sub_eq_zero_of_le (by omega), List.drop_zero]

theorem dequeAppend_of_full (maxlen : ℕ) (q : List α) (x : α)
    (h : q.length = maxlen) (hpos : 0 < maxlen) :
    dequeAppend maxlen q x = q.tail ++ [x] := by
  unfold dequeAppend
  have : q.length + 1 - maxlen = 1 := by omega
  rw [this]
  cases q with
  | nil => simp at h; omega
  | cons a l => simp

/-- `MountainCarAgent.__init__` (agent.py lines 61-83): empty replay deque,
`target_update_counter = 0`, and the target model starts as a copy of the
main model (`set_weights(get_weights())`, line 77). -/
def mkAgent (σ : Type) (replay_memory_size min_replay_memory_size
    batch_size update_target_every : ℕ) (w : θ) : Agent σ θ :=
  { replay_memory := []
    replay_memory_size := replay_memory_size
    min_replay_memory_size := min_replay_memory_size
    batch_size := batch_size
    target_update_counter := 0
    update_target_every := update_target_every
    modelW := w
    targetW := w }

/-- A transition "labeled `n`" for the end-to-end buffer scenario. -/
def labelT (n : ℕ) : Transition ℕ :=
  { state := n, action := 0, reward := 0, next_state := n, done := false }

theorem foldl_update_length_le (ag : Agent σ θ) (ts : List (Transition σ))
    (h : ag.replay_memory.length ≤ ag.replay_memory_size) :
    ((ts.foldl update_replay_memory ag).replay_memory).length ≤
      ag.replay_memory_size := by
  induction ts generalizing ag with
  | nil => exact h
  | cons t ts ih =>
    simp only [List.foldl_cons]
    have hstep : ((update_replay_memory ag t).replay_memory).length ≤
        ag.replay_memory_size := by
      have := dequeAppend_length ag.replay_memory_size ag.replay_memory t h
      simp only [update_replay_memory] at *
      omega
    have hsz : (update_replay_memory ag t).replay_memory_size =
        ag.replay_memory_size := rfl
    have := ih (update_replay_memory ag t) (by rw [hsz]; exact hstep)
    rwa [hsz] at this

/-- C2: for every sequence of calls to `update_replay_memory`, the replay
buffer's length never exceeds `replay_memory_size`; once the buffer is at
capacity each further push evicts exactly the oldest stored transition; and
pushing 7 transitions labeled 1..7 into a fresh agent of capacity 5 leaves
exactly the transitions 3,4,5,6,7 in that relative order. -/
theorem C2_replay_memory_fifo :
    (∀ (ag : Agent ℕ ℕ) (ts : List (Transition ℕ)),
        ag.replay_memory.length ≤ ag.replay_memory_size →
        ((ts.foldl update_replay_memory ag).replay_memory).length ≤
          ag.replay_memory_size) ∧
    (∀ (ag : Agent ℕ ℕ) (t : Transition ℕ),
        ag.replay_memory.length = ag.replay_memory_size →
        0 < ag.replay_memory_size →
        (update_replay_memory ag t).replay_memory =
          ag.replay_memory.tail ++ [t]) ∧
    (((List.range 7).map (fun n => labelT (n + 1))).foldl update_replay_memory
        (mkAgent ℕ 5 0 0 0 0)).replay_memory =
      [labelT 3, labelT 4, labelT 5, labelT 6, labelT 7] := by
  refine ⟨fun ag ts h => foldl_update_length_le ag ts h, fun ag t h hpos => ?_, ?_⟩
  · simp only [update_replay_memory]
    exact dequeAppend_of_full _ _ _ h hpos
  · rfl

/-- Witness for C2 at concrete inputs. -/
theorem C2_replay_memory_fifo_witness :
    (((([labelT 1, labelT 2, labelT 3]).foldl update_replay_memory
        (mkAgent ℕ 2 0 0 0 0)).replay_memory).length ≤ 2) ∧
    ((update_replay_memory
        { mkAgent ℕ 2 0 0 0 0 with replay_memory := [labelT 1, labelT 2] }
        (labelT 3)).replay_memory = [labelT 2, labelT 3]) :=
  ⟨C2_replay_memory_fifo.1 (mkAgent ℕ 2 0 0 0 0) [labelT 1, labelT 2, labelT 3]
      (by decide),
   C2_replay_memory_fifo.2.1
      { mkAgent ℕ 2 0 0 0 0 with replay_memory := [labelT 1, labelT 2] }
      (labelT 3) (by decide) (by decide)⟩

/-- `np.max` over a network output row (agent.py line 204). `np.max` on an
empty array raises; rows here are network outputs whose length is the action
count, so the `[]` case (defaulted to 0) is off the real domain. -/
def npMax : List ℚ → ℚ
  | [] => 0
  | x :: xs => xs.foldl max x

/-- `new_q` of `MountainCarAgent.training_step` (agent.py lines 201-207):
`reward + discount * max(future_qs)` for a non-terminal transition,
`reward` for a terminal one. -/
def newQ (discount : ℚ) (futureQs : List ℚ) (t : Transition σ) : ℚ :=
  if !t.done then t.reward + discount * npMax futureQs else t.reward

/-- One row of the training targets (agent.py lines 209-212): the main
model's prediction for `t.state` with the component at `t.action`
overwritten in place by `new_q`; the bootstrap row comes from the target
model's prediction for `t.next_state` (line 192). -/
def targetRow (evalM evalT : θ → σ → List ℚ) (discount : ℚ)
    (ag : Agent σ θ) (t : Transition σ) : List ℚ :=
  (evalM ag.modelW t.state).set t.action
    (newQ discount (evalT ag.targetW t.next_state) t)

/-- `target_q_values` accumulated by the loop of
`MountainCarAgent.training_step` (agent.py lines 194-216), one row per
minibatch entry, in minibatch order. -/
def targetQValues (evalM evalT : θ → σ → List ℚ) (discount : ℚ)
    (ag : Agent σ θ) (minibatch : List (Transition σ)) : List (List ℚ) :=
  minibatch.map (targetRow evalM evalT discount ag)

/-- `MountainCarAgent.training_step` (agent.py lines 176-219).
Returns unchanged (`some ag`) when the replay memory is below
`min_replay_memory_size` (lines 179-180); otherwise calls
`random.sample(replay_memory, batch_size)`, whose choice of a
`batch_size`-element minibatch is supplied as the oracle `pick` and which
raises `ValueError` when `batch_size` exceeds the population size
(modeled as `none`); then fits the main model on the minibatch states
against `target_q_values` (line 219). -/
def training_step (evalM evalT : θ → σ → List ℚ)
    (fit : θ → List σ → List (List ℚ) → θ) (discount : ℚ)
    (pick : List (Transition σ)) (ag : Agent σ θ) : Option (Agent σ θ) :=
  if ag.replay_memory.length < ag.min_replay_memory_size then some ag
  else if ag.batch_size ≤ ag.replay_memory.length then
    let minibatch := pick
    let states_input := minibatch.map (fun t => t.state)
    let target_q_values := targetQValues evalM evalT discount ag minibatch
    some { ag with modelW := fit ag.modelW states_input target_q_values }
  else none

/-- C1: when `training_step` trains, the minibatch targets handed to the
fit operation are `targetQValues`; row `i` equals the main model's current
prediction for `state` with only the component at `action` overwritten —
by `reward` when `done`, and by `reward + discount * max` of the target
network's prediction for `next_state` when not `done` — while every other
component keeps the main model's own current prediction. -/
theorem C1_fit_target_vector (evalM evalT : θ → σ → List ℚ)
    (fit : θ → List σ → List (List ℚ) → θ) (discount : ℚ)
    (ag : Agent σ θ) (pick : List (Transition σ)) (i : ℕ)
    (hi : i < pick.length)
    (hlen : ¬ ag.replay_memory.length < ag.min_replay_memory_size)
    (hbatch : ag.batch_size ≤ ag.replay_memory.length) :
    training_step evalM evalT fit discount pick ag =
      some { ag with modelW := (fit ag.modelW (pick.map (fun t => t.state))
        (targetQValues evalM evalT discount ag pick)) } ∧
    (targetQValues evalM evalT discount ag pick)[i]? =
      some ((evalM ag.modelW pick[i].state).set pick[i].action
        (if pick[i].done then pick[i].reward
         else pick[i].reward +
           discount * npMax (evalT ag.targetW pick[i].next_state))) ∧
    (∀ j, j ≠ pick[i].action →
        (targetRow evalM evalT discount ag pick[i])[j]? =
          (evalM ag.modelW pick[i].state)[j]?) ∧
    (pick[i].action < (evalM ag.modelW pick[i].state).length →
        (targetRow evalM evalT discount ag pick[i])[pick[i].action]? =
          some (if pick[i].done then pick[i].reward
            else pick[i].reward +
              discount * npMax (evalT ag.targetW pick[i].next_state))) := by
  refine ⟨?_, ?_, ?_, ?_⟩
  · simp only [training_step, if_neg hlen, if_pos hbatch]
  · simp only [targetQValues, List.getElem?_map,
      List.getElem?_eq_getElem hi, Option.map_some]
    cases h : pick[i].done <;>
      simp [targetRow, newQ, h]
  · intro j hj
    cases h : pick[i].done <;>
      simp [targetRow, newQ, h, List.getElem?_set_ne (Ne.symm hj)]
  · intro hact
    cases h : pick[i].done <;>
      simp [targetRow, newQ, h, List.getElem?_set_eq_of_lt _ hact]

/-- A network-evaluation stand-in for concrete witnesses. -/
def wEvalM : ℕ → ℕ → List ℚ := fun _ s => [(s : ℚ), (s : ℚ) + 1]

/-- A target-network-evaluation stand-in for concrete witnesses. -/
def wEvalT : ℕ → ℕ → List ℚ := fun _ s => [2 * (s : ℚ), 1]

/-- A gradient-step stand-in for concrete witnesses: any parameter change. -/
def wFit : ℕ → List ℕ → List (List ℚ) → ℕ := fun w _ _ => w + 1

/-- A concrete agent state with one stored transition, for witnesses. -/
def wAgent : Agent ℕ ℕ :=
  { mkAgent ℕ 5 1 1 3 0 with replay_memory := [labelT 1] }

/-- A concrete non-terminal transition, for witnesses. -/
def t0 : Transition ℕ :=
  { state := 1, action := 1, reward := 5, next_state := 2, done := false }

/-- Witness for C1 at concrete inputs. -/
theorem C1_fit_target_vector_witness :
    training_step wEvalM wEvalT wFit (1/2) [t0] wAgent =
      some { wAgent with modelW := (wFit wAgent.modelW
        ([t0].map (fun t => t.state))
        (targetQValues wEvalM wEvalT (1/2) wAgent [t0])) } ∧
    (targetRow wEvalM wEvalT (1/2) wAgent t0)[0]? =
      (wEvalM wAgent.modelW t0.state)[0]? :=
  ⟨(C1_fit_target_vector wEvalM wEvalT wFit (1/2) wAgent [t0] 0
      (by decide) (by decide) (by decide)).1,
   (C1_fit_target_vector wEvalM wEvalT wFit (1/2) wAgent [t0] 0
      (by decide) (by decide) (by decide)).2.2.1 0 (by decide)⟩

/-- C5: when the replay memory holds fewer than `min_replay_memory_size`
transitions, `training_step` returns at once without sampling or fitting
(`some ag`, every field unchanged), and any number of such calls — each
with an arbitrary sample oracle — leaves the whole agent state, in
particular the main and target model parameters, unchanged. -/
theorem C5_training_noop_below_min (evalM evalT : θ → σ → List ℚ)
    (fit : θ → List σ → List (List ℚ) → θ) (discount : ℚ)
    (pick : List (Transition σ)) (picks : List (List (Transition σ)))
    (ag : Agent σ θ)
    (h : ag.replay_memory.length < ag.min_replay_memory_size) :
    training_step evalM evalT fit discount pick ag = some ag ∧
    picks.foldl
      (fun s p => (training_step evalM evalT fit discount p s).getD s) ag
      = ag := by
  have hone : ∀ p, training_step evalM evalT fit discount p ag = some ag :=
    fun p => by simp only [training_step, if_pos h]
  refine ⟨hone pick, ?_⟩
  induction picks with
  | nil => rfl
  | cons p ps ih => simp only [List.foldl_cons, hone p, Option.getD_some, ih]

/-- Witness for C5 at concrete inputs. -/
theorem C5_training_noop_below_min_witness :
    training_step wEvalM wEvalT wFit (1/2) [t0]
      { mkAgent ℕ 5 10 4 3 0 with replay_memory := [labelT 1] } =
      some { mkAgent ℕ 5 10 4 3 0 with replay_memory := [labelT 1] } ∧
    ([[t0], [t0], []]).foldl
      (fun s p => (training_step wEvalM wEvalT wFit (1/2) p s).getD s)
      { mkAgent ℕ 5 10 4 3 0 with replay_memory := [labelT 1] } =
      { mkAgent ℕ 5 10 4 3 0 with replay_memory := [labelT 1] } :=
  C5_training_noop_below_min wEvalM wEvalT wFit (1/2) [t0] [[t0], [t0], []]
    { mkAgent ℕ 5 10 4 3 0 with replay_memory := [labelT 1] } (by decide)

/-- C6 counterexample: with `batch_size = 2` and
`min_replay_memory_size = 1` — parameters the constructor accepts without
complaint — pushing a single transition into a fresh agent and then calling
`training_step` reaches `random.sample(replay_memory, 2)` on a length-1
population: the sample precondition is violated (`ValueError`, modeled as
`none`), refuting the claim that this branch is unreachable. -/
theorem C6_sample_cex :
    training_step wEvalM wEvalT wFit (1/2) []
      (update_replay_memory (mkAgent ℕ 5 1 2 3 0) t0) = none := by
  rfl

/-- C6 (amended): provided `batch_size ≤ min_replay_memory_size`, every
call to `training_step` that passes the minimum-fill check requests at
most the buffer's current size from `random.sample`, so the sample
precondition violation branch is unreachable. -/
theorem C6_sample_precondition (evalM evalT : θ → σ → List ℚ)
    (fit : θ → List σ → List (List ℚ) → θ) (discount : ℚ)
    (pick : List (Transition σ)) (ag : Agent σ θ)
    (h : ag.batch_size ≤ ag.min_replay_memory_size) :
    (training_step evalM evalT fit discount pick ag).isSome = true := by
  unfold training_step
  split
  · rfl
  · rename_i hge
    have hle : ag.batch_size ≤ ag.replay_memory.length :=
      le_trans h (not_lt.mp hge)
    simp [if_pos hle]

/-- Witness for the amended C6 at concrete inputs. -/
theorem C6_sample_precondition_witness :
    (training_step wEvalM wEvalT wFit (1/2) [t0]
      (update_replay_memory (mkAgent ℕ 5 1 1 3 0) t0)).isSome = true :=
  C6_sample_precondition wEvalM wEvalT wFit (1/2) [t0]
    (update_replay_memory (mkAgent ℕ 5 1 1 3 0) t0) (by decide)

/-- The target-network bookkeeping of one environment step of
`MountainCarAgent.train_agent` (agent.py lines 151-161): on a terminal
step `target_update_counter` is incremented (line 156); then, whenever the
counter is a positive multiple of `update_target_every`, the target model
is assigned the main model's weights and the counter reset (lines 159-161).
The state is `(target_update_counter, number of set_weights syncs so far)`. -/
def syncStep (update_target_every : ℕ) (st : ℕ × ℕ) (done : Bool) : ℕ × ℕ :=
  let c := if done then st.1 + 1 else st.1
  if c % update_target_every = 0 ∧ 0 < c then (0, st.2 + 1) else (c, st.2)

/-- Done flags of one episode with `n` non-terminal steps followed by its
single terminal step (the `while not done` loop of agent.py lines 135-163
ends exactly at the first step reporting `done`). -/
def episodeFlags (n : ℕ) : List Bool :=
  List.replicate n false ++ [true]

theorem syncStep_counter_lt (u : ℕ) (hu : 0 < u) (st : ℕ × ℕ) (d : Bool)
    (h : st.1 < u) : (syncStep u st d).1 < u := by
  rcases st with ⟨c, s⟩
  cases d with
  | false =>
    simp only [syncStep, Bool.false_eq_true, if_false]
    split
    · exact hu
    · exact h
  | true =>
    simp only [syncStep, if_true]
    split
    · exact hu
    · rename_i hcond
      rcases Nat.lt_or_ge (c + 1) u with hlt | hge
      · exact hlt
      · have heq : c + 1 = u := by omega
        exact absurd ⟨by rw [heq, Nat.mod_self], by omega⟩ hcond

theorem foldl_syncStep_counter_lt (u : ℕ) (hu : 0 < u) (flags : List Bool)
    (st : ℕ × ℕ) (h : st.1 < u) : (flags.foldl (syncStep u) st).1 < u := by
  induction flags generalizing st with
  | nil => exact h
  | cons d fs ih =>
    exact ih (syncStep u st d) (syncStep_counter_lt u hu st d h)

theorem syncStep_false_frame (u c s : ℕ) (_hu : 0 < u) (hc : c < u) :
    syncStep u (c, s) false = (c, s) := by
  simp only [syncStep, Bool.false_eq_true, if_false]
  rw [if_neg]
  rintro ⟨hmod, hpos⟩
  rw [Nat.mod_eq_of_lt hc] at hmod
  omega

theorem episode_fold (u n c s : ℕ) (hu : 0 < u) (hc : c < u) :
    (episodeFlags n).foldl (syncStep u) (c, s) =
      if c + 1 = u then (0, s + 1) else (c + 1, s) := by
  have hrep : (List.replicate n false).foldl (syncStep u) (c, s) = (c, s) := by
    induction n with
    | zero => rfl
    | succ m ih =>
      rw [List.replicate_succ, List.foldl_cons, syncStep_false_frame u c s hu hc]
      exact ih
  unfold episodeFlags
  rw [List.foldl_append, hrep]
  simp only [List.foldl_cons, List.foldl_nil, syncStep, if_true]
  by_cases heq : c + 1 = u
  · rw [if_pos heq, if_pos ⟨by rw [heq, Nat.mod_self], by omega⟩]
  · rw [if_neg heq, if_neg]
    rintro ⟨hmod, -⟩
    rw [Nat.mod_eq_of_lt (by omega)] at hmod
    omega

/-- C3: `target_update_counter` is incremented exactly on steps whose done
flag is true; the target weights are copied and the counter reset exactly
when the counter becomes a positive multiple of `update_target_every`
(on reachable states the counter stays below `update_target_every`, so
non-terminal steps never synchronize); and with `update_target_every = 3`
and 7 episodes of arbitrary lengths, each ending in its single terminal
step, synchronization happens exactly twice — during the terminal step of
episode 3 and of episode 6, and not in episode 7. -/
theorem C3_sync_cadence :
    (∀ u c s : ℕ, syncStep u (c, s) true =
        if (c + 1) % u = 0 then (0, s + 1) else (c + 1, s)) ∧
    (∀ u c s : ℕ, 0 < u → c < u → syncStep u (c, s) false = (c, s)) ∧
    (∀ (u : ℕ) (flags : List Bool), 0 < u →
        (flags.foldl (syncStep u) (0, 0)).1 < u) ∧
    (∀ eps : List ℕ, eps.length = 7 →
        ((((eps.take 2).map episodeFlags).flatten).foldl (syncStep 3) (0, 0)).2
          = 0 ∧
        ((((eps.take 3).map episodeFlags).flatten).foldl (syncStep 3) (0, 0)).2
          = 1 ∧
        ((((eps.take 6).map episodeFlags).flatten).foldl (syncStep 3) (0, 0)).2
          = 2 ∧
        (((eps.map episodeFlags).flatten).foldl (syncStep 3) (0, 0)).2 = 2) := by
  refine ⟨fun u c s => ?_, fun u c s hu hc => syncStep_false_frame u c s hu hc,
    fun u flags hu => foldl_syncStep_counter_lt u hu flags (0, 0) hu, ?_⟩
  · simp only [syncStep, if_true, Nat.succ_pos, and_true]
  · intro eps hlen
    rcases eps with - | ⟨n1, - | ⟨n2, - | ⟨n3, - | ⟨n4, - | ⟨n5, - |
      ⟨n6, - | ⟨n7, rest⟩⟩⟩⟩⟩⟩⟩ <;> simp only [List.length] at hlen <;>
      try omega
    have hrest : rest = [] := by
      cases rest with
      | nil => rfl
      | cons x xs => simp [List.length] at hlen
    subst hrest
    have s1 : (episodeFlags n1).foldl (syncStep 3) (0, 0) = (1, 0) := by
      rw [episode_fold 3 n1 0 0 (by norm_num) (by norm_num)]; norm_num
    have s2 : (episodeFlags n2).foldl (syncStep 3) (1, 0) = (2, 0) := by
      rw [episode_fold 3 n2 1 0 (by norm_num) (by norm_num)]; norm_num
    have s3 : (episodeFlags n3).foldl (syncStep 3) (2, 0) = (0, 1) := by
      rw [episode_fold 3 n3 2 0 (by norm_num) (by norm_num)]; norm_num
    have s4 : (episodeFlags n4).foldl (syncStep 3) (0, 1) = (1, 1) := by
      rw [episode_fold 3 n4 0 1 (by norm_num) (by norm_num)]; norm_num
    have s5 : (episodeFlags n5).foldl (syncStep 3) (1, 1) = (2, 1) := by
      rw [episode_fold 3 n5 1 1 (by norm_num) (by norm_num)]; norm_num
    have s6 : (episodeFlags n6).foldl (syncStep 3) (2, 1) = (0, 2) := by
      rw [episode_fold 3 n6 2 1 (by norm_num) (by norm_num)]; norm_num
    have s7 : (episodeFlags n7).foldl (syncStep 3) (0, 2) = (1, 2) := by
      rw [episode_fold 3 n7 0 2 (by norm_num) (by norm_num)]; norm_num
    refine ⟨?_, ?_, ?_, ?_⟩ <;>
      simp only [List.take_succ_cons, List.take_zero, List.map_cons,
        List.map_nil, List.flatten_cons, List.flatten_nil, List.append_nil,
        List.foldl_append, s1, s2, s3, s4, s5, s6, s7]

/-- Witness for C3 at concrete inputs (7 one-step episodes). -/
theorem C3_sync_cadence_witness :
    ((((([0, 0, 0, 0, 0, 0, 0] : List ℕ).take 3).map episodeFlags).flatten).foldl
        (syncStep 3) (0, 0)).2 = 1 ∧
    (((([0, 0, 0, 0, 0, 0, 0] : List ℕ).map episodeFlags).flatten).foldl
        (syncStep 3) (0, 0)).2 = 2 :=
  ⟨(C3_sync_cadence.2.2.2 [0, 0, 0, 0, 0, 0, 0] (by decide)).2.1,
   (C3_sync_cadence.2.2.2 [0, 0, 0, 0, 0, 0, 0] (by decide)).2.2.2⟩

/-- Epsilon bookkeeping of one episode of `train_agent` within a cycle
(agent.py): the clamp `current_epsilon = max(epsilon_min, current_epsilon)`
at the top of the episode loop (line 119) gives the epsilon in effect for
the episode's action selection, and at the end of the episode
`current_epsilon -= epsilon_decay_value` (line 165). Returns
`(epsilon in effect during the episode, variable value after the episode)`. -/
def epsilonEpisode (epsilon_min epsilon_decay_value e : ℚ) : ℚ × ℚ :=
  let eff := max epsilon_min e
  (eff, eff - epsilon_decay_value)

/-- Value of the `current_epsilon` variable just before episode `n` of a
cycle that starts from `e0` (agent.py line 113). -/
def epsilonVar (epsilon_min epsilon_decay_value e0 : ℚ) : ℕ → ℚ
  | 0 => e0
  | n + 1 => (epsilonEpisode epsilon_min epsilon_decay_value
      (epsilonVar epsilon_min epsilon_decay_value e0 n)).2

/-- The epsilon in effect during episode `n`'s action selection
(agent.py lines 119 and 141). -/
def effEpsilon (epsilon_min epsilon_decay_value e0 : ℚ) (n : ℕ) : ℚ :=
  (epsilonEpisode epsilon_min epsilon_decay_value
    (epsilonVar epsilon_min epsilon_decay_value e0 n)).1

/-- C4: within one training cycle, the epsilon in effect for the next
episode equals `max(epsilon_min, previous effective epsilon − decay)`,
the effective epsilon never drops below `epsilon_min`, and (for a
non-negative decay amount; the code uses 0.01) it is monotonically
non-increasing across completed episodes. -/
theorem C4_epsilon_schedule (emin d e0 : ℚ) (hd : 0 ≤ d) :
    (∀ n, effEpsilon emin d e0 (n + 1) =
        max emin (effEpsilon emin d e0 n - d)) ∧
    (∀ n, emin ≤ effEpsilon emin d e0 n) ∧
    (∀ n, effEpsilon emin d e0 (n + 1) ≤ effEpsilon emin d e0 n) := by
  have hrec : ∀ n, effEpsilon emin d e0 (n + 1) =
      max emin (effEpsilon emin d e0 n - d) := by
    intro n
    simp [effEpsilon, epsilonVar, epsilonEpisode]
  have hlb : ∀ n, emin ≤ effEpsilon emin d e0 n := fun n =>
    le_max_left _ _
  refine ⟨hrec, hlb, fun n => ?_⟩
  rw [hrec n]
  exact max_le (hlb n) (by linarith)

/-- Witness for C4 at the code's constants
(`epsilon_min = epsilon_decay_value = 0.01`, cycle start `epsilon = 1`). -/
theorem C4_epsilon_schedule_witness :
    effEpsilon (1/100) (1/100) 1 1 =
      max (1/100) (effEpsilon (1/100) (1/100) 1 0 - 1/100) ∧
    (1/100 : ℚ) ≤ effEpsilon (1/100) (1/100) 1 0 :=
  ⟨(C4_epsilon_schedule (1/100) (1/100) 1 (by norm_num)).1 0,
   (C4_epsilon_schedule (1/100) (1/100) 1 (by norm_num)).2.1 0⟩

/-- `MoveToGoal` game state (move_to_goal.py lines 8-22): board size,
rewards, step cap, steps played and the player/goal positions. The board
pixel array and colors are display-only and omitted. -/
structure MoveToGoal where
  board_x : ℤ
  board_y : ℤ
  goal_reward : ℚ
  move_reward : ℚ
  game_end : ℕ
  steps_played : ℕ
  player : ℤ × ℤ
  goal : ℤ × ℤ
  deriving DecidableEq, Repr

/-- The `actions` list of `MoveToGoal.__init__` (move_to_goal.py line 22). -/
def mtgActions : List String := ["up", "right", "down", "left"]

/-- Python list indexing `l[i]`: a non-negative index below the length is
used directly, a negative index down to `-len` counts from the right, and
anything else raises `IndexError` (modeled as `none`). -/
def pyGet (l : List α) (i : ℤ) : Option α :=
  if 0 ≤ i ∧ i < l.length then l.get? i.toNat
  else if -(l.length : ℤ) ≤ i ∧ i < 0 then l.get? ((l.length : ℤ) + i).toNat
  else none

/-- `MoveToGoal.execute_player_action` (move_to_goal.py lines 55-77): the
integer action first indexes `self.actions` with Python list semantics
(so indices in [-4,-1] silently select from the right and indices outside
[-4,4) raise `IndexError` before anything is mutated); the selected name
then moves the player one cell, clamped at the board border. The trailing
`raise ValueError("Wrong action: ...")` branch is kept but unreachable,
since indexing only ever yields one of the four action names. -/
def execute_player_action (g : MoveToGoal) (action : ℤ) :
    Except String MoveToGoal :=
  match pyGet mtgActions action with
  | none => Except.error "IndexError: list index out of range"
  | some a =>
    let px := g.player.1
    let py := g.player.2
    if a = "up" then
      Except.ok { g with player :=
        (px, if py < g.board_y - 1 then py + 1 else py) }
    else if a = "right" then
      Except.ok { g with player :=
        ((if px < g.board_x - 1 then px + 1 else px), py) }
    else if a = "down" then
      Except.ok { g with player :=
        (px, if 0 < py then py - 1 else py) }
    else if a = "left" then
      Except.ok { g with player :=
        ((if 0 < px then px - 1 else px), py) }
    else Except.error "ValueError: Wrong action"

/-- `MoveToGoal.step` (move_to_goal.py lines 82-98): execute the action,
give `goal_reward` and `done = True` when the player sits on the goal,
else `move_reward` and `done = False`; then advance `steps_played` and
force `done = True` once the step cap is reached. Returns the updated
game together with `(state, reward, done)`, where
`state = (player, goal)` is `get_state` (lines 79-80). -/
def MoveToGoal.step (g : MoveToGoal) (action : ℤ) :
    Except String (MoveToGoal × ((ℤ × ℤ) × (ℤ × ℤ)) × ℚ × Bool) :=
  match execute_player_action g action with
  | Except.error e => Except.error e
  | Except.ok g1 =>
    let rd : ℚ × Bool :=
      if g1.player = g1.goal then (g1.goal_reward, true)
      else (g1.move_reward, false)
    let g2 : MoveToGoal := { g1 with steps_played := g1.steps_played + 1 }
    let d : Bool := if g2.game_end ≤ g2.steps_played then true else rd.2
    Except.ok (g2, ((g2.player, g2.goal), rd.1, d))

/-- One data-collection step of `train_agent` (agent.py lines 145-148):
the environment's step result is pushed to the replay memory verbatim as
`(state, action, reward, new_state, done)`. -/
def collectStep (envStep : σ → ℕ → σ × ℚ × Bool) (ag : Agent σ θ) (s : σ)
    (a : ℕ) : Agent σ θ × σ × ℚ × Bool :=
  let r := envStep s a
  (update_replay_memory ag
    { state := s, action := a, reward := r.2.1,
      next_state := r.1, done := r.2.2 }, r)

theorem dequeAppend_getLast (maxlen : ℕ) (q : List α) (x : α)
    (h : 0 < maxlen) : (dequeAppend maxlen q x).getLast? = some x := by
  unfold dequeAppend
  rw [List.drop_append_of_le_length (by omega), List.getLast?_concat]

/-- C7: the terminal flag pushed to the replay memory is exactly the done
flag the environment's step call returned; and for `MoveToGoal.step`, done
is true if and only if the player's position equals the goal position
after the move or `steps_played` has reached `game_end` — so a transition
truncated by the step cap is reported terminal only when the environment
itself set done, and bootstraps future value exactly when the
environment's own done flag was false. -/
theorem C7_done_flag_fidelity :
    (∀ (envStep : ℕ → ℕ → ℕ × ℚ × Bool) (ag : Agent ℕ ℕ) (s a : ℕ),
        0 < ag.replay_memory_size →
        ((collectStep envStep ag s a).1.replay_memory).getLast? =
          some { state := s, action := a, reward := (envStep s a).2.1,
                 next_state := (envStep s a).1,
                 done := (envStep s a).2.2 } ∧
        (collectStep envStep ag s a).2.2.2 = (envStep s a).2.2) ∧
    (∀ (g : MoveToGoal) (action : ℤ) (g2 : MoveToGoal)
        (st : (ℤ × ℤ) × (ℤ × ℤ)) (r : ℚ) (d : Bool),
        MoveToGoal.step g action = Except.ok (g2, (st, r, d)) →
        (d = true ↔ (g2.player = g2.goal ∨ g2.game_end ≤ g2.steps_played))) := by
  constructor
  · intro envStep ag s a hpos
    refine ⟨?_, rfl⟩
    simp only [collectStep, update_replay_memory]
    exact dequeAppend_getLast _ _ _ hpos
  · intro g action g2 st r d h
    unfold MoveToGoal.step at h
    cases hE : execute_player_action g action with
    | error e => rw [hE] at h; exact absurd h (by simp)
    | ok g1 =>
      rw [hE] at h
      simp only [Except.ok.injEq, Prod.mk.injEq] at h
      obtain ⟨hg2, -, -, hd⟩ := h
      subst hg2
      subst hd
      by_cases hpg : g1.player = g1.goal <;>
        by_cases hcap : g1.game_end ≤ g1.steps_played + 1 <;>
          simp [hpg, hcap]

/-- Witness for C7 at concrete inputs: a one-action environment on ℕ. -/
theorem C7_done_flag_fidelity_witness :
    (((collectStep (fun s _ => (s + 1, -1, false)) wAgent 0 0).1.replay_memory).getLast? =
      some { state := 0, action := 0, reward := -1, next_state := 1,
             done := false } ∧
     (collectStep (fun s _ => (s + 1, -1, false)) wAgent 0 0).2.2.2 = false) ∧
    (false = true ↔
      (((1 : ℤ), (2 : ℤ)) = ((0 : ℤ), (0 : ℤ)) ∨ (10 : ℕ) ≤ 1)) :=
  ⟨by
    have h := (C7_done_flag_fidelity.1 (fun s _ => (s + 1, -1, false))
      wAgent 0 0 (by decide))
    exact ⟨h.1, h.2⟩,
   C7_done_flag_fidelity.2
    { board_x := 4, board_y := 4, goal_reward := 1, move_reward := -1,
      game_end := 10, steps_played := 0, player := (2, 2), goal := (0, 0) }
    (-1)
    { board_x := 4, board_y := 4, goal_reward := 1, move_reward := -1,
      game_end := 10, steps_played := 1, player := (1, 2), goal := (0, 0) }
    (((1 : ℤ), (2 : ℤ)), ((0 : ℤ), (0 : ℤ))) (-1) false (by rfl)⟩

/-- A concrete `MoveToGoal` game for the C8 counterexample: 4x4 board,
player at (2,2), goal at (0,0). -/
def g0 : MoveToGoal :=
  { board_x := 4, board_y := 4, goal_reward := 1, move_reward := -1,
    game_end := 10, steps_played := 0, player := (2, 2), goal := (0, 0) }

/-- C8 counterexample: the action index −1 is not in [0, 4), yet
`execute_player_action` does not raise — Python's negative list indexing
silently reinterprets it as `actions[3] = "left"` and moves the player
from (2,2) to (1,2). -/
theorem C8_negative_action_cex :
    execute_player_action g0 (-1) = Except.ok { g0 with player := (1, 2) } := by
  rfl

/-- C8 (amended): `execute_player_action` raises exactly for integer
actions outside [−4, 4) — an `IndexError` from `self.actions[action]`,
thrown before any state is touched, so the player position is unchanged;
actions in [−4, −1] are silently reinterpreted by Python's negative
indexing as `actions[4 + action]` and execute normally, and the explicit
`ValueError` branch is unreachable. -/
theorem C8_action_range (g : MoveToGoal) (action : ℤ) :
    (∃ e, execute_player_action g action = Except.error e) ↔
      (action < -4 ∨ 4 ≤ action) := by
  constructor
  · intro ⟨e, he⟩
    by_contra hrange
    push_neg at hrange
    obtain ⟨h1, h2⟩ := hrange
    interval_cases action <;>
      simp [execute_player_action, pyGet, mtgActions] at he
  · intro h
    refine ⟨"IndexError: list index out of range", ?_⟩
    have hnone : pyGet mtgActions action = none := by
      unfold pyGet mtgActions
      rw [if_neg (by simp; omega), if_neg (by simp; omega)]
    unfold execute_player_action
    rw [hnone]

/-- `np.argmax` (agent.py line 87): the first index at which the row
attains its maximum, i.e. the lowest-index maximizer. -/
def np_argmax (l : List ℚ) : ℕ :=
  l.findIdx (fun x => decide (x = npMax l))

/-- `MountainCarAgent.produce_action` (agent.py lines 85-88):
`np.argmax(model(state))`, with no epsilon randomness. -/
def produce_action (evalM : θ → σ → List ℚ) (w : θ) (s : σ) : ℕ :=
  np_argmax (evalM w s)

/-- The `while not done` loop of `play_game` (agent.py lines 245-252):
from state `s`, repeatedly take the greedy action and step the
environment until it reports done; `fuel` bounds the number of loop
iterations (the Python loop is unbounded; `none` models not finishing
within the bound). Returns the final environment state. -/
def playLoop (envStep : σ → ℕ → σ × ℚ × Bool) (evalM : θ → σ → List ℚ)
    (w : θ) : ℕ → σ → Option σ
  | 0, _ => none
  | fuel + 1, s =>
    let a := produce_action evalM w s
    let r := envStep s a
    if r.2.2 then some r.1 else playLoop envStep evalM w fuel r.1

/-- `MountainCarAgent.play_game` (agent.py lines 241-258): reset the
environment, play greedily until done, and return the starting state
together with the win flag `env.state[0] >= env.goal_position` (the
abstract goal predicate `goal`). The pair's first component is the agent
state, which the method never touches. -/
def play_game (envReset : σ) (envStep : σ → ℕ → σ × ℚ × Bool)
    (evalM : θ → σ → List ℚ) (goal : σ → Bool) (fuel : ℕ)
    (ag : Agent σ θ) : Agent σ θ × Option (σ × Bool) :=
  match playLoop envStep evalM ag.modelW fuel envReset with
  | none => (ag, none)
  | some sf => (ag, some (envReset, goal sf))

theorem le_foldl_max (xs : List ℚ) (a : ℚ) : a ≤ xs.foldl max a := by
  induction xs generalizing a with
  | nil => exact le_refl a
  | cons y ys ih =>
    exact le_trans (le_max_left a y) (ih (max a y))

theorem mem_le_foldl_max (xs : List ℚ) (a x : ℚ) (hx : x ∈ xs) :
    x ≤ xs.foldl max a := by
  induction xs generalizing a with
  | nil => cases hx
  | cons y ys ih =>
    rcases List.mem_cons.mp hx with rfl | hmem
    · exact le_trans (le_max_right a x) (le_foldl_max ys (max a x))
    · exact ih (max a y) hmem

theorem foldl_max_mem (xs : List ℚ) (a : ℚ) :
    xs.foldl max a = a ∨ xs.foldl max a ∈ xs := by
  induction xs generalizing a with
  | nil => exact Or.inl rfl
  | cons y ys ih =>
    rcases ih (max a y) with h | h
    · rcases max_choice a y with hm | hm
      · exact Or.inl (by rw [List.foldl_cons, h, hm])
      · exact Or.inr (by rw [List.foldl_cons, h, hm]; exact List.mem_cons_self y ys)
    · exact Or.inr (List.mem_cons_of_mem y h)

theorem npMax_mem (l : List ℚ) (h : l ≠ []) : npMax l ∈ l := by
  cases l with
  | nil => exact absurd rfl h
  | cons x xs =>
    rcases foldl_max_mem xs x with hm | hm
    · rw [npMax, hm]; exact List.mem_cons_self x xs
    · exact List.mem_cons_of_mem x hm

theorem npMax_is_max (l : List ℚ) (x : ℚ) (hx : x ∈ l) : x ≤ npMax l := by
  cases l with
  | nil => cases hx
  | cons y ys =>
    rcases List.mem_cons.mp hx with rfl | hmem
    · exact le_foldl_max ys x
    · exact mem_le_foldl_max ys y x hmem

/-- C9: `np.argmax`, hence every action `play_game` takes, is the lowest
index among the maximizers of the main model's predicted action values
(its value is the row maximum, every entry is at most the maximum, and
every earlier index holds a strictly smaller value); and `play_game`
leaves the agent state — replay memory, main model parameters and target
model parameters — untouched while returning the episode's starting state
paired with the win flag computed by the environment goal predicate on
the final state. -/
theorem C9_play_game_greedy_pure :
    (∀ l : List ℚ, l ≠ [] →
        np_argmax l < l.length ∧
        l[np_argmax l]? = some (npMax l) ∧
        (∀ x ∈ l, x ≤ npMax l) ∧
        (∀ j, j < np_argmax l → ∀ hj : j < l.length, l[j] < npMax l)) ∧
    (∀ (envReset : ℕ) (envStep : ℕ → ℕ → ℕ × ℚ × Bool)
        (evalM : ℕ → ℕ → List ℚ) (goal : ℕ → Bool) (fuel : ℕ)
        (ag : Agent ℕ ℕ),
        (play_game envReset envStep evalM goal fuel ag).1 = ag ∧
        (play_game envReset envStep evalM goal fuel ag).2 =
          (playLoop envStep evalM ag.modelW fuel envReset).map
            (fun sf => (envReset, goal sf))) := by
  constructor
  · intro l hne
    have hlt : np_argmax l < l.length := by
      apply List.findIdx_lt_length_of_exists
      exact ⟨npMax l, npMax_mem l hne, by simp⟩
    have hval : l[np_argmax l] = npMax l := by
      have := @List.findIdx_getElem _ (fun x => decide (x = npMax l)) l hlt
      exact of_decide_eq_true this
    refine ⟨hlt, ?_, fun x hx => npMax_is_max l x hx, ?_⟩
    · rw [List.getElem?_eq_getElem hlt, hval]
    · intro j hj hjl
      have hne' : l[j] ≠ npMax l := by
        have := @List.not_of_lt_findIdx _ (fun x => decide (x = npMax l)) l j hj
        simpa using this
      exact lt_of_le_of_ne (npMax_is_max l _ (List.getElem_mem hjl)) hne'
  · intro envReset envStep evalM goal fuel ag
    cases h : playLoop envStep evalM ag.modelW fuel envReset <;>
      simp [play_game, h]

/-- Witness for C9 at concrete inputs: a tied row whose first maximizer is
index 1, and a one-step environment. -/
theorem C9_play_game_greedy_pure_witness :
    ([(2 : ℚ), 5, 5])[np_argmax [(2 : ℚ), 5, 5]]? =
      some (npMax [(2 : ℚ), 5, 5]) ∧
    (play_game 0 (fun s _ => (s + 1, 0, true)) wEvalM
      (fun s => decide (0 < s)) 3 wAgent).1 = wAgent :=
  ⟨(C9_play_game_greedy_pure.1 [(2 : ℚ), 5, 5] (by decide)).2.1,
   (C9_play_game_greedy_pure.2 0 (fun s _ => (s + 1, 0, true)) wEvalM
      (fun s => decide (0 < s)) 3 wAgent).1⟩

/-- An `Episode` of the policy-gradient code (environments.py lines 8-36):
parallel lists of states, actions and rewards (the constructor asserts
equal lengths); its length is the number of states (`__len__`, line 36). -/
structure Episode (σ : Type) where
  states : List σ
  actions : List ℤ
  rewards : List ℚ
  deriving DecidableEq

/-- `Episode.__len__` (environments.py lines 31-36): `len(self.states)`. -/
def Episode.len (e : Episode σ) : ℕ := e.states.length

/-- `Episode.total_reward` (environments.py line 29): the reward sum. -/
def Episode.total_reward (e : Episode σ) : ℚ := e.rewards.sum

/-- `EpisodesBatch` (environments.py lines 39-56): stored episodes,
the step budget `max_size`, and `current_size`, the total number of
stored steps (`__len__`). -/
structure EpisodesBatch (σ : Type) where
  episodes : List (Episode σ)
  max_size : ℕ
  current_size : ℕ
  deriving DecidableEq

/-- `EpisodesBatch.is_full` (environments.py lines 79-83):
`current_size >= max_size`. -/
def EpisodesBatch.is_full (b : EpisodesBatch σ) : Bool :=
  decide (b.max_size ≤ b.current_size)

/-- `EpisodesBatch.add_episode` (environments.py lines 66-77): when the
batch is not full, append the episode and add its length to
`current_size`; otherwise raise `ValueError` — the mutations sit only in
the non-full branch, so a raising call leaves `episodes` and
`current_size` untouched. -/
def EpisodesBatch.add_episode (b : EpisodesBatch σ) (e : Episode σ) :
    Except String (EpisodesBatch σ) :=
  if ¬ b.is_full then
    Except.ok { b with episodes := b.episodes ++ [e],
                       current_size := b.current_size + e.len }
  else Except.error "The batch is full!"

/-- C10: `add_episode` raises exactly when `current_size ≥ max_size` at
the time of the call (a raising call changes nothing); on success it
appends the episode and grows `current_size` by exactly the episode's
length — which can push `current_size` past `max_size`, since fullness is
checked only before insertion. -/
theorem C10_add_episode :
    (∀ (b : EpisodesBatch ℕ) (e : Episode ℕ),
        (∃ msg, b.add_episode e = Except.error msg) ↔
          b.max_size ≤ b.current_size) ∧
    (∀ (b : EpisodesBatch ℕ) (e : Episode ℕ),
        b.current_size < b.max_size →
        b.add_episode e = Except.ok
          { b with episodes := b.episodes ++ [e],
                   current_size := b.current_size + e.len }) ∧
    (∃ (b : EpisodesBatch ℕ) (e : Episode ℕ) (b2 : EpisodesBatch ℕ),
        b.add_episode e = Except.ok b2 ∧ b2.max_size < b2.current_size) := by
  refine ⟨fun b e => ?_, fun b e h => ?_, ?_⟩
  · unfold EpisodesBatch.add_episode EpisodesBatch.is_full
    constructor
    · rintro ⟨msg, hmsg⟩
      by_contra hlt
      rw [if_pos (by simpa using hlt)] at hmsg
      cases hmsg
    · intro hge
      rw [if_neg (by simpa using hge)]
      exact ⟨"The batch is full!", rfl⟩
  · unfold EpisodesBatch.add_episode EpisodesBatch.is_full
    rw [if_pos (by simpa using not_le.mpr h)]
  · refine ⟨⟨[], 1, 0⟩, ⟨[0, 1, 2, 3, 4], [], []⟩, _, rfl, ?_⟩
    decide

/-- Witness for C10 at concrete inputs. -/
theorem C10_add_episode_witness :
    ((⟨[], 3, 5⟩ : EpisodesBatch ℕ).add_episode ⟨[7], [0], [1]⟩
      = Except.error "The batch is full!" ∨
      (∃ msg, (⟨[], 3, 5⟩ : EpisodesBatch ℕ).add_episode ⟨[7], [0], [1]⟩
        = Except.error msg)) ∧
    (⟨[], 3, 0⟩ : EpisodesBatch ℕ).add_episode ⟨[7], [0], [1]⟩ =
      Except.ok ⟨[⟨[7], [0], [1]⟩], 3, 1⟩ :=
  ⟨Or.inr ((C10_add_episode.1 ⟨[], 3, 5⟩ ⟨[7], [0], [1]⟩).mpr (by decide)),
   C10_add_episode.2.1 ⟨[], 3, 0⟩ ⟨[7], [0], [1]⟩ (by decide)⟩
